import Mathlib

/-!
Verification of the Dialect-Backend chunked-upload service.

The definitions below are a shallow embedding of the Python sources:
`app/api/endpoints/audio.py` (chunk upload, merge and transcription
endpoints), `app/api/deps.py` (bearer-token check) and
`app/services/formatters.py` (timestamp/SRT/VTT formatting).  Byte
payloads are `List Nat`; Python strings are Lean `String`s, and the string
operations the code uses (`split`, `partition`, `startswith`, `strip`,
`join`, `replace`, `lower`, `int(...)`, `f"{n:06d}"`, `sorted`) are
modelled on the underlying character lists so that every definition
evaluates inside the kernel.
-/

/-- Byte payload of a chunk (Python `bytes`). -/
abbrev Bytes := List Nat

/-- One step of Python `int` digit accumulation. -/
def digitStep (a : Nat) (c : Char) : Nat := a * 10 + (c.toNat - 48)

/-- Decimal digits of `n`, most significant first, with `fuel` bounding the
recursion depth (any `fuel > n` is enough).  These are the digits produced
by Python's decimal formatting of a non-negative integer. -/
def natDecChars (fuel n : Nat) : List Char :=
  match fuel with
  | 0 => []
  | fuel' + 1 =>
    if n < 10 then [Nat.digitChar n]
    else natDecChars fuel' (n / 10) ++ [Nat.digitChar (n % 10)]

/-- Python `str(n)` for a non-negative integer. -/
def natDecimal (n : Nat) : String := ⟨natDecChars (n + 1) n⟩

/-- Zero padding to width `w`, as in Python's `f"{…:0wd}"` format. -/
def zeroPad (w : Nat) (l : List Char) : List Char :=
  List.replicate (w - l.length) '0' ++ l

/-- Python `f"{n:0wd}"` for a non-negative integer. -/
def padNat (w n : Nat) : String := ⟨zeroPad w (natDecChars (n + 1) n)⟩

/-- Python `f"{i:06d}"`: the sign counts towards the width and the zero
padding goes after the sign. -/
def pad6Int (i : Int) : String :=
  if i < 0 then ⟨'-' :: zeroPad 5 (natDecChars (i.natAbs + 1) i.natAbs)⟩
  else ⟨zeroPad 6 (natDecChars (i.toNat + 1) i.toNat)⟩

/-- Dropping whitespace from both ends of a character list (the strip
Python's `int()` applies to its argument; ASCII whitespace — the handful
of rarer control and Unicode space characters Python also strips do not
change any behavior this development reasons about). -/
def stripWs (l : List Char) : List Char :=
  ((l.dropWhile Char.isWhitespace).reverse.dropWhile Char.isWhitespace).reverse

/-- Validity of a Python integer digit run after the optional sign:
digits with single underscores allowed only between digits.  `prev`
records whether the previous character was a digit. -/
def chkDigits : Bool → List Char → Bool
  | prev, [] => prev
  | prev, c :: rest =>
    if c.isDigit then chkDigits true rest
    else if c = '_' then prev && chkDigits false rest
    else false

/-- Python `int(s)` on the part after the optional sign: digits with
underscore separators between digits; underscores are ignored in the
value. -/
def pyDigits (l : List Char) : Option Nat :=
  if chkDigits false l then some ((l.filter (fun c => ¬ c = '_')).foldl digitStep 0)
  else none

/-- Python `int(s)`: surrounding whitespace stripped, then an optional
sign followed by digits (underscore separators allowed between digits);
`none` models the `ValueError` raise. -/
def pyInt (s : String) : Option Int :=
  match stripWs s.data with
  | [] => none
  | c :: rest =>
    if c = '-' then (pyDigits rest).map (fun n => -(n : Int))
    else if c = '+' then (pyDigits rest).map (fun n => (n : Int))
    else (pyDigits (c :: rest)).map (fun n => (n : Int))

/-- Python `s.split(sep)` for a one-character separator, on character
lists (`"".split(sep) = [""]`, separators at the ends yield empty parts). -/
def splitChar (sep : Char) : List Char → List (List Char)
  | [] => [[]]
  | c :: cs =>
    let r := splitChar sep cs
    if c = sep then [] :: r
    else
      match r with
      | [] => [[c]]
      | h :: t => (c :: h) :: t

/-- Python `s.startswith(pre)`. -/
def pyStartsWith (s pre : String) : Bool := pre.data.isPrefixOf s.data

/-- Splitting at the first occurrence of `sep`: the part before it and,
when `sep` occurs, the part after it. -/
def breakAtChar (sep : Char) : List Char → List Char × Option (List Char)
  | [] => ([], none)
  | c :: cs =>
    if c = sep then ([], some cs)
    else
      let r := breakAtChar sep cs
      (c :: r.1, r.2)

/-- Python `s.partition(sep)` for a one-character separator, keeping the
parts before and after the first occurrence (`partition` yields an empty
remainder when `sep` is absent, as in Python). -/
def pyPartition (s : String) (sep : Char) : String × String :=
  let r := breakAtChar sep s.data
  (⟨r.1⟩, ⟨r.2.getD []⟩)

/-- Python `s.lower()`. -/
def pyLower (s : String) : String := ⟨s.data.map Char.toLower⟩

/-- Python `s.strip()`. -/
def pyStrip (s : String) : String := ⟨stripWs s.data⟩

/-- Python `sep.join(xs)`. -/
def pyJoin (sep : String) : List String → String
  | [] => ""
  | [x] => x
  | x :: y :: xs => x ++ sep ++ pyJoin sep (y :: xs)

/-- Python `s.replace(a, b)` for one-character pattern and replacement. -/
def pyReplaceChar (s : String) (a b : Char) : String :=
  ⟨s.data.map (fun c => if c = a then b else c)⟩

/-- Insertion step of a stable ascending sort. -/
def stableInsert (le : α → α → Bool) (x : α) : List α → List α
  | [] => [x]
  | y :: ys => if le x y then x :: y :: ys else y :: stableInsert le x ys

/-- Python `sorted(l, key=…)`: a stable ascending sort by the comparison
`le` (insertion sort; Python's timsort is observationally the same). -/
def pySorted (le : α → α → Bool) : List α → List α
  | [] => []
  | x :: xs => stableInsert le x (pySorted le xs)

/-- `audio.py` line 133: the stored chunk filename `f"chunk_{i:06d}"`. -/
def chunkName (i : Int) : String := "chunk_" ++ pad6Int i

/-- `audio.py` line 191: the merge sort key `int(x.split("_")[1])`;
`none` models the `IndexError`/`ValueError` raise. -/
def parseChunkIdx (x : String) : Option Int :=
  match (splitChar '_' x.data).drop 1 with
  | [] => none
  | p :: _ => pyInt ⟨p⟩

/-- Total sort key for `merge_chunks`.  Filenames on which Python would
raise get a dummy key, but `merge_chunks` checks for them beforehand. -/
def sortKey (x : String) : Int := (parseChunkIdx x).getD 0

/-- Contents of one staging directory: filename ↦ bytes. -/
abbrev Dir := List (String × Bytes)

/-- The `<tmpdir>/chunks` staging area: `fileMd5` ↦ directory contents.
A key is present exactly when `os.path.isdir` holds for its directory.
The flat map models keys and filenames that are single path components
(see `plainComponent`); a key or filename containing `/` or `..` makes
`os.path.join` address a different directory entirely — C2 exhibits this
divergence explicitly via `_chunk_dir` — so the session-level theorems
carry `plainComponent` hypotheses. -/
abbrev FS := List (String × Dir)

/-- A string that `os.path.join` treats as exactly one path component:
nonempty, without a separator, and not a relative-directory token.  Keys
and filenames of this shape address exactly one entry of their directory,
matching the association-list filesystem model. -/
def plainComponent (s : String) : Bool :=
  decide (s ≠ "") && !(s.data.contains '/') && decide (s ≠ ".") && decide (s ≠ "..")

/-- Write/overwrite one association.  (The resulting entry order is
irrelevant to the code, which never relies on directory listing order:
`merge_chunks` sorts listings explicitly.) -/
def setKey (m : List (String × α)) (k : String) (v : α) : List (String × α) :=
  m.filter (fun p => ¬ p.1 = k) ++ [(k, v)]

/-- Deletion of one association (`os.rmdir` seen from the parent map). -/
def delKey (m : List (String × α)) (k : String) : List (String × α) :=
  m.filter (fun p => ¬ p.1 = k)

/-- `os.makedirs(..., exist_ok=True)` followed by `open(path, "wb")`:
create the staging directory if missing, then write/overwrite the file. -/
def storeChunk (fs : FS) (md5 name : String) (b : Bytes) : FS :=
  setKey fs md5 (setKey ((List.lookup md5 fs).getD []) name b)

/-- `fastapi.HTTPException(status_code, detail)`. -/
structure HTTPError where
  status : Nat
  detail : String
deriving DecidableEq, Repr

/-- JSON scalar values appearing in the chunk-upload responses. -/
inductive JVal where
  | s (v : String)
  | i (v : Int)
deriving DecidableEq, Repr

/-- A JSON object, as an ordered key/value list. -/
abbrev JsonObj := List (String × JVal)

/-- Observable server state: the chunk staging area plus the log of byte
payloads handed to the (opaque) recognizer. -/
structure ServerState where
  fs : FS
  transcribed : List Bytes
deriving DecidableEq, Repr

/-- Headers of the raw-bytes upload path (`upload-*`); `none` = absent. -/
structure RawHeaders where
  fileMd5 : Option String
  chunkIndex : Option String
  totalChunks : Option String
  filename : Option String
deriving DecidableEq, Repr

/-- Fields of the multipart fallback form; `none` = absent. -/
structure MultipartForm where
  file : Option Bytes
  fileMd5 : Option String
  chunkIndex : Option String
  totalChunks : Option String
  filename : Option String
deriving DecidableEq, Repr

/-- JSON body of `/v1/audio/merge` (`data.get(...)`; `none` = absent). -/
structure MergeReq where
  fileMd5 : Option String
  filename : Option String
  cleanup : Option Bool
deriving DecidableEq, Repr

/-- `upload_chunk`, branch one (raw bytes with `upload-*` headers),
`audio.py` lines 108-139.  An error leaves the state untouched; success
writes the chunk file and reports the byte count. -/
def upload_chunk_raw (h : RawHeaders) (body : Bytes) (st : ServerState) :
    Except HTTPError JsonObj × ServerState :=
  let filename := h.filename.getD "unknown"
  match h.fileMd5, h.chunkIndex, h.totalChunks with
  | some md5, some ci, some tc =>
    if md5 = "" then (.error ⟨400, "Missing required upload headers"⟩, st)
    else
      match pyInt ci, pyInt tc with
      | some cii, some _tci =>
        (.ok [("status", .s "ok"), ("chunk_index", .i cii),
              ("filename", .s filename), ("bytes", .i (body.length : Int))],
         { st with fs := storeChunk st.fs md5 (chunkName cii) body })
      | _, _ => (.error ⟨400, "Invalid chunk index or total chunks"⟩, st)
  | _, _, _ => (.error ⟨400, "Missing required upload headers"⟩, st)

/-- `upload_chunk`, branch two (multipart fallback), `audio.py` lines
141-168.  Its success response carries no `bytes` field in the source. -/
def upload_chunk_multipart (f : MultipartForm) (st : ServerState) :
    Except HTTPError JsonObj × ServerState :=
  let filename := f.filename.getD "unknown"
  match f.file with
  | none => (.error ⟨400, "Invalid multipart form fields"⟩, st)
  | some chunk =>
    match f.fileMd5, f.chunkIndex, f.totalChunks with
    | some md5, some ci, some tc =>
      if md5 = "" then (.error ⟨400, "Invalid multipart form fields"⟩, st)
      else
        match pyInt ci, pyInt tc with
        | some cii, some _tci =>
          (.ok [("status", .s "ok"), ("chunk_index", .i cii), ("filename", .s filename)],
           { st with fs := storeChunk st.fs md5 (chunkName cii) chunk })
        | _, _ => (.error ⟨400, "Invalid chunk index or total chunks"⟩, st)
    | _, _, _ => (.error ⟨400, "Invalid multipart form fields"⟩, st)

/-- Post-merge cleanup, `audio.py` lines 206-215: remove each listed chunk
file, then the merged artifact, then `os.rmdir` the directory; a raise is
caught and only logged.  Removing the merged artifact raises when its name
coincided with a chunk file (already removed), skipping the `rmdir`;
`rmdir` raises when the directory is still non-empty.  Returns `none` when
the directory was removed, otherwise the contents left behind. -/
def doCleanup (dir : Dir) (chunkFiles : List String) (filename : String) : Option Dir :=
  let d1 := chunkFiles.foldl (fun d n => d.filter (fun p => ¬ p.1 = n)) dir
  if (List.lookup filename d1).isSome then
    let d2 := d1.filter (fun p => ¬ p.1 = filename)
    if d2.isEmpty then none else some d2
  else some d1

/-- `merge_chunks`, `audio.py` lines 171-217.  The `.ok` payload is the
merged artifact, which is also the file handed to the recognizer; the 500
error models the uncaught `ValueError`/`IndexError` that Python's
`sorted` would raise on a foreign `chunk_*` filename.  The output file is
truncated when it is opened — before the chunks are read — so an output
name colliding with a chunk file loses that chunk's bytes. -/
def merge_chunks (req : MergeReq) (st : ServerState) :
    Except HTTPError Bytes × ServerState :=
  match req.fileMd5 with
  | none => (.error ⟨400, "fileMd5 is required"⟩, st)
  | some md5 =>
    if md5 = "" then (.error ⟨400, "fileMd5 is required"⟩, st)
    else
      let filename := req.filename.getD (md5 ++ ".wav")
      let cleanup := req.cleanup.getD true
      match List.lookup md5 st.fs with
      | none => (.error ⟨400, "Chunk directory not found"⟩, st)
      | some dir =>
        let names := (dir.map Prod.fst).filter (fun n => pyStartsWith n "chunk_")
        if names.any (fun n => (parseChunkIdx n).isNone) then
          (.error ⟨500, "unhandled ValueError while sorting chunk files"⟩, st)
        else
          let chunk_files := pySorted (fun a b => decide (sortKey a ≤ sortKey b)) names
          if chunk_files.isEmpty then (.error ⟨400, "No chunks found to merge"⟩, st)
          else
            -- `open(merged_path, "wb")` at line 197 truncates (or creates) the
            -- output file BEFORE any chunk is read: a chunk file whose name
            -- equals `filename` is emptied first and contributes no bytes
            -- (the bytes written to the output are buffered, so a self-read
            -- sees the truncated file).
            let dir0 := setKey dir filename []
            let merged := chunk_files.flatMap (fun n => (List.lookup n dir0).getD [])
            let dir1 := setKey dir0 filename merged
            let st1 : ServerState := ⟨setKey st.fs md5 dir1, st.transcribed ++ [merged]⟩
            if cleanup then
              match doCleanup dir1 chunk_files filename with
              | none => (.ok merged, ⟨delKey st1.fs md5, st1.transcribed⟩)
              | some d2 => (.ok merged, ⟨setKey st1.fs md5 d2, st1.transcribed⟩)
            else (.ok merged, st1)

/-- `_chunk_dir` (`audio.py` lines 101-102):
`os.path.join(tempfile.gettempdir(), "chunks", md5)`.  The client-supplied
key is spliced into the path with no validation whatsoever. -/
def _chunk_dir (tmpdir md5 : String) : String := tmpdir ++ "/chunks/" ++ md5

/-- Components of a slash-separated path. -/
def pathComponents (p : String) : List String :=
  ((splitChar '/' p.data).filter (· ≠ [])).map (fun l => ⟨l⟩)

/-- Resolve `.` and `..` components the way the operating system does. -/
def resolveComponents (cs : List String) : List String :=
  cs.foldl
    (fun acc c =>
      if c = "." then acc
      else if c = ".." then acc.dropLast
      else acc ++ [c]) []

/-- The resolved path of `p` stays inside the resolved path of `root`. -/
def staysUnder (root p : String) : Bool :=
  (resolveComponents (pathComponents root)).isPrefixOf
    (resolveComponents (pathComponents p))

/-- `deps.verify_api_key`: the dependency guarding every endpoint.
`none` models a missing `Authorization` header; like the code's falsiness
test, an empty header is rejected the same way. -/
def verify_api_key (apiKey : String) (authorization : Option String) :
    Except HTTPError Unit :=
  match authorization with
  | none => .error ⟨401, "Authorization header is missing"⟩
  | some a =>
    if a = "" then .error ⟨401, "Authorization header is missing"⟩
    else
      let p := pyPartition a ' '
      if pyLower p.1 ≠ "bearer" ∨ p.2 ≠ apiKey then .error ⟨401, "Invalid API Key"⟩
      else .ok ()

/-- Success payloads of the protected endpoints: a JSON object for the
chunk endpoint, otherwise the audio bytes that reached the recognizer
(whose result shaping is opaque to this development). -/
inductive Resp where
  | json (o : JsonObj)
  | artifact (b : Bytes)
deriving DecidableEq, Repr

/-- The protected endpoints with their (abstracted) request payloads:
`/v1/audio/transcriptions`, the two branches of `/v1/audio/chunk`,
`/v1/audio/merge` and `/v1/audio/from_url` (with the already-fetched
remote bytes). -/
inductive ApiRequest where
  | transcription (body : Bytes)
  | chunkRaw (h : RawHeaders) (body : Bytes)
  | chunkMultipart (f : MultipartForm)
  | mergeCall (req : MergeReq)
  | fromUrl (fetched : Bytes)
deriving DecidableEq, Repr

/-- Handler dispatch after a successful auth check.  `transcription` and
`from_url` hand their bytes to the opaque recognizer. -/
def handle (req : ApiRequest) (st : ServerState) : Except HTTPError Resp × ServerState :=
  match req with
  | .transcription body =>
    (.ok (.artifact body), { st with transcribed := st.transcribed ++ [body] })
  | .chunkRaw h body =>
    let r := upload_chunk_raw h body st
    (r.1.map .json, r.2)
  | .chunkMultipart f =>
    let r := upload_chunk_multipart f st
    (r.1.map .json, r.2)
  | .mergeCall m =>
    let r := merge_chunks m st
    (r.1.map .artifact, r.2)
  | .fromUrl fetched =>
    (.ok (.artifact fetched), { st with transcribed := st.transcribed ++ [fetched] })

/-- One request to a protected endpoint: the `verify_api_key` dependency
runs before the handler (`Depends` in the route declarations), so a failed
check reaches no handler code and leaves the state untouched. -/
def app (apiKey : String) (authorization : Option String) (req : ApiRequest)
    (st : ServerState) : Except HTTPError Resp × ServerState :=
  match verify_api_key apiKey authorization with
  | .error e => (.error e, st)
  | .ok _ => handle req st

/-- One `sentence_info` entry (`{start, end, text}`, times in
milliseconds; `end` is a Lean keyword, hence `end_`). -/
structure Sentence where
  start : Nat
  end_ : Nat
  text : String
deriving DecidableEq, Repr

/-- The recognizer-result shape consumed by the formatters. -/
structure RecResult where
  text : String
  sentence_info : List Sentence
deriving DecidableEq, Repr

/-- `_format_timestamp` (`formatters.py` lines 4-12).  `timedelta`
arithmetic on whole non-negative milliseconds:
`int(td.total_seconds()) = ms / 1000` and
`td.microseconds // 1000 = ms % 1000`. -/
def _format_timestamp (milliseconds : Nat) : String :=
  let total_seconds := milliseconds / 1000
  let ms := milliseconds % 1000
  let hours := total_seconds / 3600
  let minutes := (total_seconds % 3600) / 60
  let seconds := total_seconds % 60
  padNat 2 hours ++ ":" ++ padNat 2 minutes ++ ":" ++ padNat 2 seconds ++ "," ++ padNat 3 ms

/-- The cue blocks accumulated by `to_srt`'s loop
(`for i, sent in enumerate(sentences)` with cue number `i + 1`). -/
def srtCues (r : RecResult) : List String :=
  r.sentence_info.enum.map (fun p =>
    natDecimal (p.1 + 1) ++ "\n" ++ _format_timestamp p.2.start ++ " --> " ++
    _format_timestamp p.2.end_ ++ "\n" ++ pyStrip p.2.text ++ "\n")

/-- `to_srt` (`formatters.py` lines 46-55). -/
def to_srt (r : RecResult) : String := pyJoin "\n" (srtCues r)

/-- The cue lines accumulated by `to_vtt`'s loop (timestamps with the
comma replaced by a period). -/
def vttCues (r : RecResult) : List String :=
  r.sentence_info.map (fun s =>
    pyReplaceChar (_format_timestamp s.start) ',' '.' ++ " --> " ++
    pyReplaceChar (_format_timestamp s.end_) ',' '.' ++ "\n" ++ pyStrip s.text ++ "\n")

/-- `to_vtt` (`formatters.py` lines 58-67): the list joined by `"\n"`
begins with the literal `WEBVTT` header line. -/
def to_vtt (r : RecResult) : String := pyJoin "\n" ("WEBVTT\n" :: vttCues r)

/-! ### Decimal rendering and parsing -/

theorem natDecChars_ne_nil {fuel n : Nat} (h : n < fuel) : natDecChars fuel n ≠ [] := by
  cases fuel with
  | zero => omega
  | succ fuel' =>
    unfold natDecChars
    split
    · simp
    · simp

theorem digitChar_isDigit {n : Nat} (h : n < 10) : (Nat.digitChar n).isDigit = true := by
  interval_cases n <;> decide

theorem digitChar_val {n : Nat} (h : n < 10) : (Nat.digitChar n).toNat - 48 = n := by
  interval_cases n <;> decide

theorem natDecChars_all_isDigit {fuel n : Nat} (h : n < fuel) :
    (natDecChars fuel n).all (·.isDigit) = true := by
  induction fuel generalizing n with
  | zero => omega
  | succ fuel' ih =>
    unfold natDecChars
    split
    · next hlt => simp [digitChar_isDigit hlt]
    · next hge =>
      have h10 : 10 ≤ n := by omega
      have hdiv : n / 10 < fuel' := by
        have := Nat.div_lt_self (by omega : 0 < n) (by omega : 1 < 10)
        omega
      have hmod : n % 10 < 10 := Nat.mod_lt _ (by omega)
      simp [List.all_append, ih hdiv, digitChar_isDigit hmod]

theorem foldl_digitStep_natDecChars {fuel n : Nat} (h : n < fuel) (a : Nat) :
    (natDecChars fuel n).foldl digitStep a =
      a * 10 ^ (natDecChars fuel n).length + n := by
  induction fuel generalizing n a with
  | zero => omega
  | succ fuel' ih =>
    unfold natDecChars
    split
    · next hlt =>
      simp [List.foldl, digitStep, digitChar_val hlt]
    · next hge =>
      have h10 : 10 ≤ n := by omega
      have hdiv : n / 10 < fuel' := by
        have := Nat.div_lt_self (by omega : 0 < n) (by omega : 1 < 10)
        omega
      have hmod : n % 10 < 10 := Nat.mod_lt _ (by omega)
      rw [List.foldl_append, ih hdiv a, List.length_append]
      simp [List.foldl, digitStep, digitChar_val hmod]
      rw [pow_succ]
      have := Nat.div_add_mod n 10
      ring_nf
      omega

theorem foldl_digitStep_replicate_zero (k : Nat) (a : Nat) :
    (List.replicate k '0').foldl digitStep a = a * 10 ^ k := by
  induction k generalizing a with
  | zero => simp
  | succ k' ih =>
    rw [List.replicate_succ, List.foldl_cons, ih]
    show (digitStep a '0') * 10 ^ k' = a * 10 ^ (k' + 1)
    have h0 : digitStep a '0' = a * 10 := by simp [digitStep]
    rw [h0]
    ring

theorem isDigit_ne_special {c : Char} (h : c.isDigit = true) :
    c ≠ '-' ∧ c ≠ '+' ∧ c ≠ '_' ∧ c ≠ '/' := by
  refine ⟨?_, ?_, ?_, ?_⟩ <;> · intro he; subst he; simp at h

theorem isDigit_not_ws {c : Char} (h : c.isDigit = true) : c.isWhitespace = false := by
  cases hw : c.isWhitespace with
  | false => rfl
  | true =>
    exfalso
    simp [Char.isWhitespace] at hw
    rcases hw with ((h1 | h1) | h1) | h1 <;> simp_all

theorem dropWhile_eq_self_of_not {p : Char → Bool} {l : List Char}
    (h : ∀ c ∈ l, p c = false) : l.dropWhile p = l := by
  cases l with
  | nil => rfl
  | cons c cs =>
    rw [List.dropWhile_cons, if_neg (by simp [h c (List.mem_cons_self c cs)])]

theorem stripWs_eq_self {l : List Char} (h : ∀ c ∈ l, c.isWhitespace = false) :
    stripWs l = l := by
  unfold stripWs
  rw [dropWhile_eq_self_of_not h,
    dropWhile_eq_self_of_not (fun c hc => h c (List.mem_reverse.mp hc)),
    List.reverse_reverse]

theorem stripWs_all_digits {l : List Char} (hd : l.all (·.isDigit) = true) :
    stripWs l = l := by
  refine stripWs_eq_self ?_
  intro c hc
  exact isDigit_not_ws (List.all_eq_true.mp hd c hc)

theorem chkDigits_true_of_all {l : List Char} (hd : l.all (·.isDigit) = true) :
    chkDigits true l = true := by
  induction l with
  | nil => rfl
  | cons c cs ih =>
    simp only [List.all_cons, Bool.and_eq_true] at hd
    unfold chkDigits
    rw [if_pos hd.1]
    exact ih hd.2

theorem pyDigits_all_digits {l : List Char} (hne : l ≠ []) (hd : l.all (·.isDigit) = true) :
    pyDigits l = some (l.foldl digitStep 0) := by
  have hmem : ∀ c ∈ l, c.isDigit = true := List.all_eq_true.mp hd
  cases l with
  | nil => exact absurd rfl hne
  | cons c cs =>
    have hchk : chkDigits false (c :: cs) = true := by
      unfold chkDigits
      rw [if_pos (hmem c (List.mem_cons_self c cs))]
      refine chkDigits_true_of_all ?_
      rw [List.all_eq_true]
      exact fun x hx => hmem x (List.mem_cons_of_mem c hx)
    have hf : List.filter (fun x => ¬ x = '_') (c :: cs) = c :: cs := by
      rw [List.filter_eq_self]
      intro a ha
      simp only [decide_eq_true_eq]
      exact (isDigit_ne_special (hmem a ha)).2.2.1
    unfold pyDigits
    rw [if_pos hchk, hf]

theorem pyInt_all_digits {l : List Char} (hne : l ≠ []) (hd : l.all (·.isDigit) = true) :
    pyInt ⟨l⟩ = some ((l.foldl digitStep 0 : Nat) : Int) := by
  have hmem : ∀ c ∈ l, c.isDigit = true := List.all_eq_true.mp hd
  cases l with
  | nil => exact absurd rfl hne
  | cons c cs =>
    have hc : c.isDigit = true := hmem c (List.mem_cons_self c cs)
    obtain ⟨h1, h2, _, _⟩ := isDigit_ne_special hc
    show pyInt ⟨c :: cs⟩ = _
    unfold pyInt
    rw [show (⟨c :: cs⟩ : String).data = c :: cs from rfl, stripWs_all_digits hd]
    simp only [if_neg h1, if_neg h2]
    rw [pyDigits_all_digits hne hd]
    rfl

theorem zeroPad_all_isDigit {l : List Char} (hd : l.all (·.isDigit) = true) (w : Nat) :
    (zeroPad w l).all (·.isDigit) = true := by
  unfold zeroPad
  simp [List.all_append, hd]

theorem zeroPad_ne_nil {l : List Char} (hne : l ≠ []) (w : Nat) : zeroPad w l ≠ [] := by
  unfold zeroPad
  intro h
  rcases List.append_eq_nil.mp h with ⟨_, h2⟩
  exact hne h2

theorem foldl_digitStep_zeroPad {fuel n : Nat} (h : n < fuel) (w : Nat) :
    (zeroPad w (natDecChars fuel n)).foldl digitStep 0 = n := by
  unfold zeroPad
  rw [List.foldl_append, foldl_digitStep_replicate_zero, foldl_digitStep_natDecChars h]
  simp

theorem pyInt_zeroPad_natDecChars {fuel n : Nat} (h : n < fuel) (w : Nat) :
    pyInt ⟨zeroPad w (natDecChars fuel n)⟩ = some (n : Int) := by
  rw [pyInt_all_digits (zeroPad_ne_nil (natDecChars_ne_nil h) w)
      (zeroPad_all_isDigit (natDecChars_all_isDigit h) w)]
  rw [foldl_digitStep_zeroPad h]

theorem pyInt_natDecimal (n : Nat) : pyInt (natDecimal n) = some (n : Int) := by
  unfold natDecimal
  rw [pyInt_all_digits (natDecChars_ne_nil (Nat.lt_succ_self n))
      (natDecChars_all_isDigit (Nat.lt_succ_self n))]
  rw [foldl_digitStep_natDecChars (Nat.lt_succ_self n)]
  simp

theorem pyInt_pad6Int (i : Int) : pyInt (pad6Int i) = some i := by
  unfold pad6Int
  split
  · next hneg =>
    show pyInt ⟨'-' :: zeroPad 5 (natDecChars (i.natAbs + 1) i.natAbs)⟩ = some i
    have hdig : (zeroPad 5 (natDecChars (i.natAbs + 1) i.natAbs)).all (·.isDigit) = true :=
      zeroPad_all_isDigit (natDecChars_all_isDigit (Nat.lt_succ_self _)) 5
    have hstrip : stripWs ('-' :: zeroPad 5 (natDecChars (i.natAbs + 1) i.natAbs)) =
        '-' :: zeroPad 5 (natDecChars (i.natAbs + 1) i.natAbs) := by
      refine stripWs_eq_self ?_
      intro c hc
      rcases List.mem_cons.mp hc with h | h
      · subst h; decide
      · exact isDigit_not_ws (List.all_eq_true.mp hdig c h)
    unfold pyInt
    rw [show (⟨'-' :: zeroPad 5 (natDecChars (i.natAbs + 1) i.natAbs)⟩ : String).data =
        '-' :: zeroPad 5 (natDecChars (i.natAbs + 1) i.natAbs) from rfl, hstrip]
    simp only [if_pos]
    rw [pyDigits_all_digits (zeroPad_ne_nil (natDecChars_ne_nil (Nat.lt_succ_self _)) 5) hdig]
    rw [foldl_digitStep_zeroPad (Nat.lt_succ_self _)]
    show some (-(i.natAbs : Int)) = some i
    congr 1
    omega
  · next hpos =>
    rw [pyInt_zeroPad_natDecChars (Nat.lt_succ_self _)]
    congr 1
    omega

/-! ### Splitting filenames and the `chunkName` round trip -/

theorem splitChar_no_sep {sep : Char} {l : List Char} (h : ∀ c ∈ l, c ≠ sep) :
    splitChar sep l = [l] := by
  induction l with
  | nil => rfl
  | cons c cs ih =>
    have hc : c ≠ sep := h c (List.mem_cons_self c cs)
    have hrest : ∀ x ∈ cs, x ≠ sep := fun x hx => h x (List.mem_cons_of_mem c hx)
    unfold splitChar
    simp only [if_neg hc, ih hrest]

theorem splitChar_cons (sep c : Char) (cs : List Char) :
    splitChar sep (c :: cs) =
      if c = sep then [] :: splitChar sep cs
      else
        match splitChar sep cs with
        | [] => [[c]]
        | h :: t => (c :: h) :: t := rfl

theorem splitChar_sep_append {sep : Char} {l1 : List Char} (h : ∀ c ∈ l1, c ≠ sep)
    (l2 : List Char) :
    splitChar sep (l1 ++ sep :: l2) = l1 :: splitChar sep l2 := by
  induction l1 with
  | nil => rw [List.nil_append, splitChar_cons, if_pos rfl]
  | cons c cs ih =>
    have hc : c ≠ sep := h c (List.mem_cons_self c cs)
    have hrest : ∀ x ∈ cs, x ≠ sep := fun x hx => h x (List.mem_cons_of_mem c hx)
    rw [List.cons_append, splitChar_cons, if_neg hc, ih hrest]

theorem pad6Int_no_underscore (i : Int) : ∀ c ∈ (pad6Int i).data, c ≠ '_' := by
  have hdig : ∀ (fuel n w : Nat), n < fuel → ∀ c ∈ zeroPad w (natDecChars fuel n), c ≠ '_' := by
    intro fuel n w hlt c hc
    have := zeroPad_all_isDigit (natDecChars_all_isDigit hlt) w
    rw [List.all_eq_true] at this
    exact (isDigit_ne_special (this c hc)).2.2.1
  unfold pad6Int
  split
  · intro c hc
    rcases List.mem_cons.mp hc with h | h
    · subst h; decide
    · exact hdig _ _ 5 (Nat.lt_succ_self _) c h
  · intro c hc
    exact hdig _ _ 6 (Nat.lt_succ_self _) c hc

theorem data_chunkName (i : Int) :
    (chunkName i).data = "chunk".data ++ '_' :: (pad6Int i).data := by
  show ("chunk_" ++ pad6Int i).data = _
  rw [String.data_append]
  rfl

theorem parseChunkIdx_chunkName (i : Int) : parseChunkIdx (chunkName i) = some i := by
  unfold parseChunkIdx
  rw [data_chunkName]
  rw [splitChar_sep_append (by decide) (pad6Int i).data]
  rw [splitChar_no_sep (pad6Int_no_underscore i)]
  simp only [List.drop_succ_cons, List.drop_zero]
  show pyInt ⟨(pad6Int i).data⟩ = some i
  have : (⟨(pad6Int i).data⟩ : String) = pad6Int i := rfl
  rw [this, pyInt_pad6Int]

theorem chunkName_inj {i j : Int} (h : chunkName i = chunkName j) : i = j := by
  have := parseChunkIdx_chunkName i
  rw [h, parseChunkIdx_chunkName j] at this
  exact (Option.some.injEq _ _).mp this.symm

theorem isPrefixOf_append_self (l t : List Char) : l.isPrefixOf (l ++ t) = true := by
  induction l with
  | nil => simp [List.isPrefixOf]
  | cons c cs ih => simp [List.isPrefixOf, ih]

theorem pyStartsWith_chunkName (i : Int) : pyStartsWith (chunkName i) "chunk_" = true := by
  unfold pyStartsWith
  rw [data_chunkName]
  exact isPrefixOf_append_self "chunk_".data (pad6Int i).data

theorem sortKey_chunkName (i : Int) : sortKey (chunkName i) = i := by
  unfold sortKey
  rw [parseChunkIdx_chunkName]
  rfl

/-! ### Association-list filesystem lemmas -/

theorem lookup_append {α : Type} (k : String) (m1 m2 : List (String × α)) :
    List.lookup k (m1 ++ m2) =
      match List.lookup k m1 with
      | some v => some v
      | none => List.lookup k m2 := by
  induction m1 with
  | nil => rfl
  | cons p t ih =>
    obtain ⟨a, b⟩ := p
    by_cases hk : k = a
    · simp [List.lookup, beq_iff_eq, hk]
    · simp only [List.cons_append, List.lookup, beq_eq_false_iff_ne.mpr hk]
      exact ih

theorem lookup_filter_self {α : Type} (k : String) (m : List (String × α)) :
    List.lookup k (m.filter (fun p => ¬ p.1 = k)) = none := by
  induction m with
  | nil => rfl
  | cons p t ih =>
    obtain ⟨a, b⟩ := p
    by_cases ha : a = k
    · simpa [List.filter_cons, ha] using ih
    · rw [List.filter_cons, if_pos (by simpa using ha)]
      simpa [List.lookup, beq_eq_false_iff_ne.mpr (Ne.symm ha)] using ih

theorem lookup_filter_ne {α : Type} {k k' : String} (h : k' ≠ k)
    (m : List (String × α)) :
    List.lookup k' (m.filter (fun p => ¬ p.1 = k)) = List.lookup k' m := by
  induction m with
  | nil => rfl
  | cons p t ih =>
    obtain ⟨a, b⟩ := p
    by_cases ha : a = k
    · subst ha
      rw [List.filter_cons, if_neg (by simp)]
      simpa [List.lookup, beq_eq_false_iff_ne.mpr h] using ih
    · rw [List.filter_cons, if_pos (by simpa using ha)]
      by_cases hk' : k' = a
      · simp [List.lookup, beq_iff_eq, hk']
      · simpa [List.lookup, beq_eq_false_iff_ne.mpr hk'] using ih

theorem lookup_setKey_self {α : Type} (m : List (String × α)) (k : String) (v : α) :
    List.lookup k (setKey m k v) = some v := by
  unfold setKey
  rw [lookup_append, lookup_filter_self]
  simp [List.lookup]

theorem lookup_setKey_ne {α : Type} (m : List (String × α)) {k k' : String} (v : α)
    (h : k' ≠ k) : List.lookup k' (setKey m k v) = List.lookup k' m := by
  unfold setKey
  rw [lookup_append, lookup_filter_ne h]
  cases hm : List.lookup k' m with
  | none => simp [List.lookup, beq_eq_false_iff_ne.mpr h]
  | some w => rfl

theorem setKey_fresh {α : Type} {m : List (String × α)} {k : String}
    (h : k ∉ m.map Prod.fst) (v : α) : setKey m k v = m ++ [(k, v)] := by
  unfold setKey
  congr 1
  rw [List.filter_eq_self]
  intro p hp
  simp only [decide_eq_true_eq]
  intro hpk
  exact h (hpk ▸ List.mem_map_of_mem Prod.fst hp)

theorem delKey_setKey {α : Type} (m : List (String × α)) (k : String) (v : α) :
    delKey (setKey m k v) k = delKey m k := by
  unfold delKey setKey
  rw [List.filter_append, List.filter_filter]
  simp

theorem map_fst_setKey {α : Type} (m : List (String × α)) (k : String) (v : α) :
    (setKey m k v).map Prod.fst = (m.map Prod.fst).filter (fun n => ¬ n = k) ++ [k] := by
  unfold setKey
  rw [List.map_append, List.filter_map]
  rfl

theorem lookup_map_pair {β : Type} (g : Nat → String) (f : Nat → β)
    (hg : ∀ a b, g a = g b → a = b) :
    ∀ (l : List Nat) (i : Nat), i ∈ l →
      List.lookup (g i) (l.map (fun j => (g j, f j))) = some (f i) := by
  intro l
  induction l with
  | nil => intro i hi; exact absurd hi (List.not_mem_nil i)
  | cons j t ih =>
    intro i hi
    by_cases hij : i = j
    · subst hij
      simp [List.lookup]
    · have : g i ≠ g j := fun he => hij (hg _ _ he)
      rcases List.mem_cons.mp hi with h | h
      · exact absurd h hij
      · simp only [List.map_cons, List.lookup, beq_eq_false_iff_ne.mpr this]
        exact ih i h

/-! ### Sorting lemmas for `pySorted` -/

theorem stableInsert_perm (le : α → α → Bool) (x : α) (l : List α) :
    (stableInsert le x l).Perm (x :: l) := by
  induction l with
  | nil => exact List.Perm.refl _
  | cons y ys ih =>
    unfold stableInsert
    split
    · exact List.Perm.refl _
    · exact List.Perm.trans (List.Perm.cons y ih) (List.Perm.swap x y ys)

theorem pySorted_perm (le : α → α → Bool) (l : List α) : (pySorted le l).Perm l := by
  induction l with
  | nil => exact List.Perm.refl _
  | cons x xs ih =>
    unfold pySorted
    exact List.Perm.trans (stableInsert_perm le x (pySorted le xs)) (List.Perm.cons x ih)

theorem mem_stableInsert {le : α → α → Bool} {x z : α} {l : List α} :
    z ∈ stableInsert le x l ↔ z = x ∨ z ∈ l := by
  rw [(stableInsert_perm le x l).mem_iff, List.mem_cons]

theorem pairwise_stableInsert {le : α → α → Bool}
    (htrans : ∀ a b c, le a b = true → le b c = true → le a c = true)
    (htotal : ∀ a b, le a b = true ∨ le b a = true) {x : α} {l : List α}
    (hl : l.Pairwise (fun a b => le a b = true)) :
    (stableInsert le x l).Pairwise (fun a b => le a b = true) := by
  induction l with
  | nil => simp [stableInsert]
  | cons y ys ih =>
    rw [List.pairwise_cons] at hl
    unfold stableInsert
    split
    · next hxy =>
      rw [List.pairwise_cons]
      refine ⟨?_, List.Pairwise.cons hl.1 hl.2⟩
      intro z hz
      rcases List.mem_cons.mp hz with h | h
      · exact h ▸ hxy
      · exact htrans x y z hxy (hl.1 z h)
    · next hxy =>
      rw [List.pairwise_cons]
      refine ⟨?_, ih hl.2⟩
      intro z hz
      rcases mem_stableInsert.mp hz with h | h
      · rw [h]
        rcases htotal x y with h2 | h2
        · exact absurd h2 (by simpa using hxy)
        · exact h2
      · exact hl.1 z h

theorem pairwise_pySorted {le : α → α → Bool}
    (htrans : ∀ a b c, le a b = true → le b c = true → le a c = true)
    (htotal : ∀ a b, le a b = true ∨ le b a = true) (l : List α) :
    (pySorted le l).Pairwise (fun a b => le a b = true) := by
  induction l with
  | nil => simp [pySorted]
  | cons x xs ih =>
    unfold pySorted
    exact pairwise_stableInsert htrans htotal ih

/-- The comparison `merge_chunks` sorts with. -/
def chunkLe (a b : String) : Bool := decide (sortKey a ≤ sortKey b)

theorem chunkLe_trans : ∀ a b c, chunkLe a b = true → chunkLe b c = true → chunkLe a c = true := by
  intro a b c h1 h2
  simp only [chunkLe, decide_eq_true_eq] at *
  exact le_trans h1 h2

theorem chunkLe_total : ∀ a b, chunkLe a b = true ∨ chunkLe b a = true := by
  intro a b
  simp only [chunkLe, decide_eq_true_eq]
  exact le_total _ _

/-- Sorting any permutation of `chunk_000000 … chunk_{N-1}` by the parsed
numeric index restores ascending index order. -/
theorem pySorted_chunkNames {names : List String} {N : Nat}
    (hperm : names.Perm ((List.range N).map (fun i : Nat => chunkName (i : Int)))) :
    pySorted chunkLe names = (List.range N).map (fun i : Nat => chunkName (i : Int)) := by
  set target := (List.range N).map (fun i : Nat => chunkName (i : Int)) with htarget
  have hsp : (pySorted chunkLe names).Perm target :=
    (pySorted_perm chunkLe names).trans hperm
  have hple : (pySorted chunkLe names).Pairwise (fun a b => chunkLe a b = true) :=
    pairwise_pySorted chunkLe_trans chunkLe_total names
  -- distinctness of the parsed keys
  have hkeys_target : (target.map sortKey) = (List.range N).map Int.ofNat := by
    rw [htarget, List.map_map]
    refine List.map_congr_left ?_
    intro i _
    simp [Function.comp, sortKey_chunkName]
  have hnd_target : (target.map sortKey).Nodup := by
    rw [hkeys_target]
    exact List.Nodup.map (fun a b h => Int.ofNat.inj h) (List.nodup_range N)
  have hnd : ((pySorted chunkLe names).map sortKey).Nodup :=
    (hsp.map sortKey).symm.nodup hnd_target
  have hpne : (pySorted chunkLe names).Pairwise (fun a b => sortKey a ≠ sortKey b) :=
    List.pairwise_map.mp hnd
  have hplt : (pySorted chunkLe names).Pairwise (fun a b => sortKey a < sortKey b) := by
    refine (hple.and hpne).imp ?_
    rintro a b ⟨h1, h2⟩
    exact lt_of_le_of_ne (by simpa [chunkLe] using h1) h2
  have htlt : target.Pairwise (fun a b => sortKey a < sortKey b) := by
    rw [htarget, List.pairwise_map]
    refine List.Pairwise.imp ?_ (List.pairwise_lt_range N)
    intro i j hij
    rw [sortKey_chunkName, sortKey_chunkName]
    exact Int.ofNat_lt.mpr hij
  haveI : IsAntisymm String (fun a b => sortKey a < sortKey b) :=
    ⟨fun a b h1 h2 => absurd (h1.trans h2) (lt_irrefl _)⟩
  exact List.eq_of_perm_of_sorted hsp hplt htlt

/-! ### Evaluating `upload_chunk` and `merge_chunks` on an upload session -/

/-- The raw-path upload request storing chunk `i` of key `md5`
(`totalChunks` is advisory and never checked against anything). -/
def putRawReq (md5 : String) (i : Nat) : RawHeaders :=
  ⟨some md5, some (natDecimal i), some (natDecimal 1), none⟩

/-- A sequence of raw-path chunk uploads for one key, in request order. -/
def uploadAll (md5 : String) (ps : List (Nat × Bytes)) (st : ServerState) : ServerState :=
  ps.foldl (fun s p => (upload_chunk_raw (putRawReq md5 p.1) p.2 s).2) st

theorem upload_chunk_raw_ok {md5 : String} (hmd5 : md5 ≠ "") (i : Nat) (b : Bytes)
    (st : ServerState) :
    upload_chunk_raw (putRawReq md5 i) b st =
      (.ok [("status", .s "ok"), ("chunk_index", .i (i : Int)),
            ("filename", .s "unknown"), ("bytes", .i (b.length : Int))],
       { st with fs := storeChunk st.fs md5 (chunkName (i : Int)) b }) := by
  unfold upload_chunk_raw putRawReq
  simp [hmd5, pyInt_natDecimal]

theorem uploadAll_cons (md5 : String) (p : Nat × Bytes) (ps : List (Nat × Bytes))
    (st : ServerState) :
    uploadAll md5 (p :: ps) st =
      uploadAll md5 ps ((upload_chunk_raw (putRawReq md5 p.1) p.2 st).2) := rfl

theorem uploadAll_transcribed {md5 : String} (hmd5 : md5 ≠ "") (ps : List (Nat × Bytes))
    (st : ServerState) : (uploadAll md5 ps st).transcribed = st.transcribed := by
  induction ps generalizing st with
  | nil => rfl
  | cons p t ih =>
    rw [uploadAll_cons, ih, upload_chunk_raw_ok hmd5]

theorem uploadAll_fs_lookup {md5 : String} (hmd5 : md5 ≠ "") (p : Nat × Bytes)
    (ps : List (Nat × Bytes)) (st : ServerState) :
    List.lookup md5 (uploadAll md5 (p :: ps) st).fs =
      some (ps.foldl (fun d q => setKey d (chunkName (q.1 : Int)) q.2)
        (setKey ((List.lookup md5 st.fs).getD []) (chunkName (p.1 : Int)) p.2)) := by
  induction ps generalizing p st with
  | nil =>
    rw [uploadAll_cons, upload_chunk_raw_ok hmd5]
    show List.lookup md5 (storeChunk st.fs md5 (chunkName (p.1 : Int)) p.2) = _
    unfold storeChunk
    rw [lookup_setKey_self]
    rfl
  | cons q t ih =>
    rw [uploadAll_cons, ih q, upload_chunk_raw_ok hmd5]
    show some (t.foldl _ (setKey ((List.lookup md5
      (storeChunk st.fs md5 (chunkName (p.1 : Int)) p.2)).getD []) _ q.2)) = _
    unfold storeChunk
    rw [lookup_setKey_self]
    rfl

theorem foldl_setKey_fresh {β : Type} (g : Nat → String) :
    ∀ (ps : List (Nat × β)) (d : List (String × β)),
      (ps.map (fun q => g q.1)).Nodup →
      (∀ q ∈ ps, g q.1 ∉ d.map Prod.fst) →
      ps.foldl (fun d q => setKey d (g q.1) q.2) d =
        d ++ ps.map (fun q => (g q.1, q.2)) := by
  intro ps
  induction ps with
  | nil => intro d _ _; simp
  | cons p t ih =>
    intro d hnd hfresh
    rw [List.map_cons, List.nodup_cons] at hnd
    rw [List.foldl_cons, setKey_fresh (hfresh p (List.mem_cons_self p t)) p.2]
    rw [ih (d ++ [(g p.1, p.2)]) hnd.2]
    · simp
    · intro q hq
      rw [List.map_append]
      intro hmem
      rcases List.mem_append.mp hmem with h | h
      · exact hfresh q (List.mem_cons_of_mem p hq) h
      · simp at h
        exact hnd.1 (h ▸ List.mem_map_of_mem (fun q => g q.1) hq)

theorem flatMap_congr_mem {γ δ : Type} {l : List γ} {g1 g2 : γ → List δ}
    (h : ∀ x ∈ l, g1 x = g2 x) : l.flatMap g1 = l.flatMap g2 := by
  induction l with
  | nil => rfl
  | cons x t ih =>
    rw [List.flatMap_cons, List.flatMap_cons, h x (List.mem_cons_self x t),
      ih (fun y hy => h y (List.mem_cons_of_mem x hy))]

theorem setKey_setKey {α : Type} (m : List (String × α)) (k : String) (v w : α) :
    setKey (setKey m k v) k w = setKey m k w := by
  unfold setKey
  rw [List.filter_append, List.filter_filter]
  simp

/-- Full evaluation of `merge_chunks` on a key whose directory holds at
least one `chunk_*` file, all of which parse: the output file is truncated
at open (before the chunks are read), the artifact is the sorted
concatenation read from that post-truncation directory, and the optional
cleanup runs on the written directory. -/
theorem merge_chunks_run (req : MergeReq) (st : ServerState) (md5 : String) (dir : Dir)
    (hreq : req.fileMd5 = some md5) (hmd5 : md5 ≠ "")
    (hdir : List.lookup md5 st.fs = some dir)
    (hparse : ∀ n ∈ (dir.map Prod.fst).filter (fun n => pyStartsWith n "chunk_"),
      (parseChunkIdx n).isSome = true)
    (hne : (dir.map Prod.fst).filter (fun n => pyStartsWith n "chunk_") ≠ []) :
    merge_chunks req st =
      (let fn := req.filename.getD (md5 ++ ".wav")
       let chunk_files :=
         pySorted chunkLe ((dir.map Prod.fst).filter (fun n => pyStartsWith n "chunk_"))
       let merged := chunk_files.flatMap (fun n => (List.lookup n (setKey dir fn [])).getD [])
       let dir1 := setKey dir fn merged
       if req.cleanup.getD true then
         match doCleanup dir1 chunk_files fn with
         | none => (.ok merged, ⟨delKey st.fs md5, st.transcribed ++ [merged]⟩)
         | some d2 => (.ok merged, ⟨setKey st.fs md5 d2, st.transcribed ++ [merged]⟩)
       else (.ok merged, ⟨setKey st.fs md5 dir1, st.transcribed ++ [merged]⟩)) := by
  have hany : ((dir.map Prod.fst).filter (fun n => pyStartsWith n "chunk_")).any
      (fun n => (parseChunkIdx n).isNone) = false := by
    rw [List.any_eq_false]
    intro n hn
    cases hopt : parseChunkIdx n with
    | none =>
      have := hparse n hn
      rw [hopt] at this
      exact absurd this (by decide)
    | some v => simp
  have hempty : (pySorted chunkLe
      ((dir.map Prod.fst).filter (fun n => pyStartsWith n "chunk_"))).isEmpty = false := by
    cases hnil : pySorted chunkLe
        ((dir.map Prod.fst).filter (fun n => pyStartsWith n "chunk_")) with
    | nil =>
      have hp := pySorted_perm chunkLe
        ((dir.map Prod.fst).filter (fun n => pyStartsWith n "chunk_"))
      rw [hnil] at hp
      exact absurd hp.symm.eq_nil hne
    | cons a t => rfl
  show merge_chunks req st = _
  unfold merge_chunks
  rw [hreq]
  simp only [if_neg hmd5, hdir]
  rw [show (fun a b => decide (sortKey a ≤ sortKey b)) = chunkLe from rfl]
  simp only [hany, Bool.false_eq_true, if_false, hempty]
  simp only [setKey_setKey, delKey_setKey]

/-- On a session directory holding exactly the chunk files of indices
`0 … N-1` with contents `f`, a merge whose output filename is none of those
chunk files returns the in-order concatenation `f 0 ++ … ++ f (N-1)`
(whatever the cleanup flag). -/
theorem merge_chunks_session_val (req : MergeReq) (st : ServerState) (md5 : String)
    (dir : Dir) (N : Nat) (f : Nat → Bytes)
    (hreq : req.fileMd5 = some md5) (hmd5 : md5 ≠ "")
    (hdir : List.lookup md5 st.fs = some dir)
    (hnames : (dir.map Prod.fst).Perm ((List.range N).map (fun i : Nat => chunkName (i : Int))))
    (hlook : ∀ i : Nat, i < N → List.lookup (chunkName (i : Int)) dir = some (f i))
    (hN : 1 ≤ N)
    (hfn_ne : ∀ i : Nat, i < N → req.filename.getD (md5 ++ ".wav") ≠ chunkName (i : Int)) :
    (merge_chunks req st).1 = .ok ((List.range N).flatMap f) := by
  have hmem : ∀ n ∈ dir.map Prod.fst, ∃ i : Nat, i < N ∧ n = chunkName (i : Int) := by
    intro n hn
    have := hnames.mem_iff.mp hn
    rcases List.mem_map.mp this with ⟨i, hi, he⟩
    exact ⟨i, List.mem_range.mp hi, he.symm⟩
  have hfilter : (dir.map Prod.fst).filter (fun n => pyStartsWith n "chunk_") =
      dir.map Prod.fst := by
    rw [List.filter_eq_self]
    intro n hn
    rcases hmem n hn with ⟨i, _, he⟩
    rw [he]
    exact pyStartsWith_chunkName (i : Int)
  have hsorted : pySorted chunkLe (dir.map Prod.fst) =
      (List.range N).map (fun i : Nat => chunkName (i : Int)) :=
    pySorted_chunkNames hnames
  have hmerged : ((List.range N).map (fun i : Nat => chunkName (i : Int))).flatMap
      (fun n => (List.lookup n (setKey dir (req.filename.getD (md5 ++ ".wav")) [])).getD []) =
      (List.range N).flatMap f := by
    rw [List.flatMap_map]
    refine flatMap_congr_mem ?_
    intro i hi
    rw [lookup_setKey_ne dir ([] : Bytes) (Ne.symm (hfn_ne i (List.mem_range.mp hi)))]
    rw [hlook i (List.mem_range.mp hi)]
    rfl
  rw [merge_chunks_run req st md5 dir hreq hmd5 hdir ?hp ?hn]
  case hp =>
    intro n hn
    rw [hfilter] at hn
    rcases hmem n hn with ⟨i, _, he⟩
    rw [he, parseChunkIdx_chunkName]
    rfl
  case hn =>
    rw [hfilter]
    intro hmap
    have h1 : ((List.range N).map (fun i : Nat => chunkName (i : Int))) = [] := by
      have h2 := hnames
      rw [hmap] at h2
      exact h2.symm.eq_nil
    have hlen := congrArg List.length h1
    simp at hlen
    omega
  simp only [hfilter, hsorted, hmerged]
  cases hc : req.cleanup.getD true with
  | false => rfl
  | true =>
    simp only
    cases doCleanup (setKey dir (req.filename.getD (md5 ++ ".wav")) ((List.range N).flatMap f))
        ((List.range N).map (fun i : Nat => chunkName (i : Int)))
        (req.filename.getD (md5 ++ ".wav")) with
    | none => rfl
    | some d2 => rfl

theorem setKey_nil {α : Type} (k : String) (v : α) : setKey ([] : List (String × α)) k v = [(k, v)] := rfl

theorem chunkName_natCast_inj : ∀ a b : Nat, chunkName (a : Int) = chunkName (b : Int) → a = b := by
  intro a b h
  exact_mod_cast chunkName_inj h

/-- After uploading one chunk per index of a duplicate-free index list into
a fresh key, the staging directory holds exactly those chunk files. -/
theorem uploadAll_dir {md5 : String} (hmd5 : md5 ≠ "") (data : List Bytes)
    (p : Nat) (rest : List Nat) (hnd : (p :: rest).Nodup) (st0 : ServerState)
    (h0 : List.lookup md5 st0.fs = none) :
    List.lookup md5
        (uploadAll md5 ((p :: rest).map (fun i => (i, data.getD i []))) st0).fs =
      some ((p :: rest).map (fun i : Nat => (chunkName (i : Int), data.getD i []))) := by
  rw [List.map_cons, uploadAll_fs_lookup hmd5, h0]
  rw [List.nodup_cons] at hnd
  have hstep : setKey ((none : Option Dir).getD []) (chunkName (p : Int)) (data.getD p []) =
      [(chunkName (p : Int), data.getD p [])] := rfl
  rw [hstep]
  rw [foldl_setKey_fresh (fun i => chunkName (i : Int))
      (rest.map (fun i => (i, data.getD i [])))
      [(chunkName (p : Int), data.getD p [])] ?nodup ?fresh]
  case nodup =>
    rw [List.map_map]
    exact List.Nodup.map (fun a b h => chunkName_natCast_inj a b h) hnd.2
  case fresh =>
    intro q hq
    rcases List.mem_map.mp hq with ⟨i, hi, he⟩
    subst he
    simp only [List.map_cons, List.map_nil, List.mem_singleton]
    intro hcn
    exact hnd.1 (chunkName_natCast_inj i p hcn ▸ hi)
  rw [List.map_map]
  rfl

theorem range_flatMap_getD (l : List Bytes) :
    (List.range l.length).flatMap (fun i => l.getD i []) = l.flatten := by
  induction l with
  | nil => rfl
  | cons b t ih =>
    rw [List.length_cons, List.range_succ_eq_map, List.flatMap_cons, List.flatMap_map]
    have : (List.range t.length).flatMap (fun a => (b :: t).getD (Nat.succ a) []) =
        (List.range t.length).flatMap (fun i => t.getD i []) := by
      refine flatMap_congr_mem ?_
      intro i _
      rfl
    rw [this, ih]
    rfl

/-- A filename that does not begin with `chunk_` is no chunk file's name. -/
theorem ne_chunkName_of_not_chunk {fn : String}
    (hfn : pyStartsWith fn "chunk_" = false) (i : Int) : fn ≠ chunkName i := by
  intro he
  rw [he, pyStartsWith_chunkName] at hfn
  exact Bool.noConfusion hfn

/-- C1 (counterexample to the claim as stated): two chunks uploaded in
reverse order and merged with the output filename equal to the first
chunk file's name.  `open(merged_path, "wb")` truncates that chunk before
it is read, so the artifact is `[2, 3]`, not the full concatenation
`[1, 2, 3]`. -/
theorem merge_filename_collision_loses_chunk :
    (merge_chunks ⟨some "k", some (chunkName 0), some false⟩
        (uploadAll "k" ([1, 0].map (fun i => (i, [[1], [2, 3]].getD i []))) ⟨[], []⟩)).1 =
      .ok [2, 3] ∧
    (.ok [2, 3] : Except HTTPError Bytes) ≠ .ok ([[1], [2, 3]] : List Bytes).flatten :=
  ⟨rfl, by simp⟩

/-- C1 (amended): chunks uploaded in any index permutation merge, after a
numeric sort of the parsed filename indices, into the in-order
concatenation — provided the output filename (explicit or defaulted) is
not itself named like a chunk file; an output name equal to a stored
chunk file's is truncated at open and that chunk's bytes are lost.  The
key and the output filename are single path components, the shape on
which the flat staging-directory model is faithful to `os.path.join`. -/
theorem chunk_merge_reassembles_any_order
    (md5 : String) (hplain : plainComponent md5 = true) (hmd5 : md5 ≠ "")
    (data : List Bytes) (hN : 1 ≤ data.length)
    (perm : List Nat) (hperm : perm.Perm (List.range data.length))
    (st0 : ServerState) (h0 : List.lookup md5 st0.fs = none)
    (req : MergeReq) (hreq : req.fileMd5 = some md5)
    (hplainfn : plainComponent (req.filename.getD (md5 ++ ".wav")) = true)
    (hfn : pyStartsWith (req.filename.getD (md5 ++ ".wav")) "chunk_" = false) :
    (merge_chunks req (uploadAll md5 (perm.map (fun i => (i, data.getD i []))) st0)).1 =
      .ok data.flatten := by
  cases hp : perm with
  | nil =>
    subst hp
    have : List.range data.length = [] := hperm.symm.eq_nil
    have h0' : data.length = 0 := by simpa using congrArg List.length this
    omega
  | cons p rest =>
    subst hp
    have hnd : (p :: rest).Nodup := hperm.symm.nodup (List.nodup_range data.length)
    have hdir := uploadAll_dir hmd5 data p rest hnd st0 h0
    rw [← range_flatMap_getD data]
    refine merge_chunks_session_val req _ md5
      ((p :: rest).map (fun i : Nat => (chunkName (i : Int), data.getD i []))) data.length
      (fun i => data.getD i []) hreq hmd5 hdir ?names ?look hN
      (fun i _ => ne_chunkName_of_not_chunk hfn _)
    case names =>
      rw [List.map_map]
      exact List.Perm.map _ hperm
    case look =>
      intro i hi
      have hmem : i ∈ p :: rest := hperm.mem_iff.mpr (List.mem_range.mpr hi)
      exact lookup_map_pair (fun j => chunkName (j : Int)) (fun j => data.getD j [])
        chunkName_natCast_inj (p :: rest) i hmem

/-- Witness for the amended C1 at a concrete instance: two chunks uploaded
in reverse order, merged under the defaulted output name `abc.wav`, give
the in-order concatenation. -/
theorem chunk_merge_reassembles_any_order_witness :
    plainComponent "abc" = true ∧
    plainComponent ((⟨some "abc", none, some false⟩ : MergeReq).filename.getD
      ("abc" ++ ".wav")) = true ∧
    pyStartsWith ((⟨some "abc", none, some false⟩ : MergeReq).filename.getD
      ("abc" ++ ".wav")) "chunk_" = false ∧
    ([1, 0] : List Nat).Perm (List.range ([[1], [2, 3]] : List Bytes).length) ∧
    (merge_chunks ⟨some "abc", none, some false⟩
        (uploadAll "abc" ([1, 0].map (fun i => (i, [[1], [2, 3]].getD i []))) ⟨[], []⟩)).1 =
      .ok ([[1], [2, 3]] : List Bytes).flatten :=
  ⟨by decide, by decide, by decide, by decide,
   chunk_merge_reassembles_any_order "abc" (by decide) (by decide) [[1], [2, 3]] (by decide)
     [1, 0] (by decide) ⟨[], []⟩ rfl ⟨some "abc", none, some false⟩ rfl (by decide) (by decide)⟩

theorem upload_overwrite {md5 : String} (hmd5 : md5 ≠ "") (j : Nat) (A B : Bytes)
    (st : ServerState) :
    (upload_chunk_raw (putRawReq md5 j) B ((upload_chunk_raw (putRawReq md5 j) A st).2)).2 =
      (upload_chunk_raw (putRawReq md5 j) B st).2 := by
  rw [upload_chunk_raw_ok hmd5 j A st]
  rw [upload_chunk_raw_ok hmd5 j B, upload_chunk_raw_ok hmd5 j B]
  show ({ fs := storeChunk (storeChunk st.fs md5 (chunkName (j : Int)) A) md5
            (chunkName (j : Int)) B, transcribed := st.transcribed } : ServerState) = _
  have : storeChunk (storeChunk st.fs md5 (chunkName (j : Int)) A) md5
      (chunkName (j : Int)) B = storeChunk st.fs md5 (chunkName (j : Int)) B := by
    unfold storeChunk
    rw [lookup_setKey_self]
    simp only [Option.getD_some]
    rw [setKey_setKey, setKey_setKey]
  rw [this]

theorem upload_stored_last {md5 : String} (hmd5 : md5 ≠ "") (j : Nat) (A B : Bytes)
    (st : ServerState) :
    List.lookup (chunkName (j : Int))
      ((List.lookup md5 ((upload_chunk_raw (putRawReq md5 j) B
          ((upload_chunk_raw (putRawReq md5 j) A st).2)).2.fs)).getD []) = some B := by
  rw [upload_overwrite hmd5, upload_chunk_raw_ok hmd5]
  show List.lookup _ ((List.lookup md5 (storeChunk st.fs md5 _ B)).getD []) = _
  unfold storeChunk
  rw [lookup_setKey_self]
  simp only [Option.getD_some]
  exact lookup_setKey_self _ _ _

/-- The multipart-fallback request storing chunk `i` of key `md5`
(`audio.py` lines 141-162). -/
def putMultipartForm (md5 : String) (i : Nat) (chunk : Bytes) : MultipartForm :=
  ⟨some chunk, some md5, some (natDecimal i), some (natDecimal 1), none⟩

theorem upload_chunk_multipart_ok {md5 : String} (hmd5 : md5 ≠ "") (i : Nat) (b : Bytes)
    (st : ServerState) :
    upload_chunk_multipart (putMultipartForm md5 i b) st =
      (.ok [("status", .s "ok"), ("chunk_index", .i (i : Int)), ("filename", .s "unknown")],
       { st with fs := storeChunk st.fs md5 (chunkName (i : Int)) b }) := by
  unfold upload_chunk_multipart putMultipartForm
  simp [hmd5, pyInt_natDecimal]

/-- Both upload paths write the same chunk file (`chunk_{i:06d}` under the
key's staging directory): their state effects coincide. -/
theorem multipart_raw_same_state {md5 : String} (hmd5 : md5 ≠ "") (i : Nat) (b : Bytes)
    (st : ServerState) :
    (upload_chunk_multipart (putMultipartForm md5 i b) st).2 =
      (upload_chunk_raw (putRawReq md5 i) b st).2 := by
  rw [upload_chunk_multipart_ok hmd5, upload_chunk_raw_ok hmd5]

/-- A multipart write of index `j` over a raw write of the same index
overwrites it: the state equals the one after the multipart write alone. -/
theorem upload_overwrite_multipart {md5 : String} (hmd5 : md5 ≠ "") (j : Nat) (A B : Bytes)
    (st : ServerState) :
    (upload_chunk_multipart (putMultipartForm md5 j B)
        ((upload_chunk_raw (putRawReq md5 j) A st).2)).2 =
      (upload_chunk_multipart (putMultipartForm md5 j B) st).2 := by
  rw [multipart_raw_same_state hmd5, multipart_raw_same_state hmd5]
  exact upload_overwrite hmd5 j A B st

theorem merge_after_reupload
    (md5 : String) (hmd5 : md5 ≠ "") (data : List Bytes) (hN : 1 ≤ data.length)
    (perm : List Nat) (hperm : perm.Perm (List.range data.length))
    (st0 : ServerState) (h0 : List.lookup md5 st0.fs = none)
    (j : Nat) (hj : j < data.length) (B : Bytes)
    (req : MergeReq) (hreq : req.fileMd5 = some md5)
    (hfn : pyStartsWith (req.filename.getD (md5 ++ ".wav")) "chunk_" = false) :
    (merge_chunks req ((upload_chunk_raw (putRawReq md5 j) B
        (uploadAll md5 (perm.map (fun i => (i, data.getD i []))) st0)).2)).1 =
      .ok (data.set j B).flatten := by
  cases hp : perm with
  | nil =>
    subst hp
    have : List.range data.length = [] := hperm.symm.eq_nil
    have h0' : data.length = 0 := by simpa using congrArg List.length this
    omega
  | cons p rest =>
    subst hp
    have hnd : (p :: rest).Nodup := hperm.symm.nodup (List.nodup_range data.length)
    have hdir1 := uploadAll_dir hmd5 data p rest hnd st0 h0
    set st1 := uploadAll md5 ((p :: rest).map (fun i => (i, data.getD i []))) st0 with hst1
    set dir1 := (p :: rest).map (fun i : Nat => (chunkName (i : Int), data.getD i [])) with hdir1def
    have hj_mem : j ∈ p :: rest := hperm.mem_iff.mpr (List.mem_range.mpr hj)
    rw [upload_chunk_raw_ok hmd5]
    have hdir2 : List.lookup md5 (storeChunk st1.fs md5 (chunkName (j : Int)) B) =
        some (setKey dir1 (chunkName (j : Int)) B) := by
      unfold storeChunk
      rw [lookup_setKey_self, hdir1]
      rfl
    rw [← range_flatMap_getD (data.set j B), List.length_set]
    refine merge_chunks_session_val req _ md5 (setKey dir1 (chunkName (j : Int)) B)
      data.length (fun i => (data.set j B).getD i []) hreq hmd5 hdir2 ?names ?look hN
      (fun i _ => ne_chunkName_of_not_chunk hfn _)
    case names =>
      rw [map_fst_setKey]
      have hmapfst : dir1.map Prod.fst = (p :: rest).map (fun i : Nat => chunkName (i : Int)) := by
        rw [hdir1def, List.map_map]
        rfl
      rw [hmapfst]
      rw [List.filter_map]
      have hfc : (p :: rest).filter
          ((fun n => decide ¬(n = chunkName (j : Int))) ∘ (fun i : Nat => chunkName (i : Int))) =
          (p :: rest).filter (fun i => i ≠ j) := by
        refine List.filter_congr ?_
        intro i _
        simp only [Function.comp, decide_eq_decide]
        constructor
        · intro h he
          exact h (he ▸ rfl)
        · intro h hcn
          exact h (chunkName_natCast_inj i j hcn)
      rw [hfc]
      have herase : (p :: rest).filter (fun i => i ≠ j) = (p :: rest).erase j := by
        rw [List.Nodup.erase_eq_filter hnd j]
        refine (List.filter_congr ?_).symm
        intro i _
        by_cases hb : i = j <;> simp [bne, hb]
      rw [herase]
      refine List.Perm.trans (List.perm_append_singleton _ _) ?_
      rw [show (chunkName (j : Int) :: ((p :: rest).erase j).map (fun i : Nat => chunkName (i : Int))) =
          ((j :: (p :: rest).erase j).map (fun i : Nat => chunkName (i : Int))) from rfl]
      exact List.Perm.trans (List.Perm.map _ (List.perm_cons_erase hj_mem).symm)
        (List.Perm.map _ hperm)
    case look =>
      intro i hi
      by_cases hij : i = j
      · subst hij
        rw [lookup_setKey_self]
        show some B = some ((data.set i B).getD i [])
        rw [List.getD_eq_getElem?_getD, List.getElem?_set_self hj]
        rfl
      · have hcn : chunkName (i : Int) ≠ chunkName (j : Int) :=
          fun h => hij (chunkName_natCast_inj i j h)
        rw [lookup_setKey_ne dir1 B hcn]
        show List.lookup (chunkName (i : Int)) dir1 = some ((data.set j B).getD i [])
        rw [List.getD_eq_getElem?_getD, List.getElem?_set_ne (fun h => hij h.symm),
          ← List.getD_eq_getElem?_getD]
        exact lookup_map_pair (fun i => chunkName (i : Int)) (fun i => data.getD i [])
          chunkName_natCast_inj (p :: rest) i (hperm.mem_iff.mpr (List.mem_range.mpr hi))

/-- C3 (counterexample to the claim as stated): index 0 uploaded as `[9]`,
re-uploaded as `[2]`, then merged with the output filename equal to that
index's chunk filename.  The store does hold `[2]`, but the output file
truncates `chunk_000000` at open, so index 0's position of the merged
artifact carries neither payload: the artifact is `[8]`, not `[2, 8]`. -/
theorem reupload_merge_filename_collision :
    (merge_chunks ⟨some "k", some (chunkName 0), some false⟩
        ((upload_chunk_raw (putRawReq "k" 0) [2]
          (uploadAll "k" ([0, 1].map (fun i => (i, [[9], [8]].getD i []))) ⟨[], []⟩)).2)).1 =
      .ok [8] ∧
    (.ok [8] : Except HTTPError Bytes) ≠ .ok ((([[9], [8]] : List Bytes).set 0 [2]).flatten) :=
  ⟨rfl, by simp⟩

/-- C3 (amended): re-uploading an index overwrites silently
(last-write-wins) on the raw path, on the multipart fallback path — which
writes the very same chunk file, so both paths produce identical states —
and across the two: the double-write state equals the single-write-of-`B`
state, the stored chunk at the index is exactly `B`, and, whenever the
merge's output filename is not itself named like a chunk file, the merged
artifact carries `B` (and nothing of the first payload) at that index's
position.  With an output filename equal to that chunk file's name the
artifact instead loses the slot entirely
(`reupload_merge_filename_collision`). -/
theorem duplicate_upload_last_write_wins
    (md5 : String) (hplain : plainComponent md5 = true) (hmd5 : md5 ≠ "")
    (data : List Bytes) (hN : 1 ≤ data.length)
    (perm : List Nat) (hperm : perm.Perm (List.range data.length))
    (st0 : ServerState) (h0 : List.lookup md5 st0.fs = none)
    (j : Nat) (hj : j < data.length) (A B : Bytes)
    (req : MergeReq) (hreq : req.fileMd5 = some md5)
    (hfn : pyStartsWith (req.filename.getD (md5 ++ ".wav")) "chunk_" = false) :
    (∀ st : ServerState,
      (upload_chunk_raw (putRawReq md5 j) B
          ((upload_chunk_raw (putRawReq md5 j) A st).2)).2 =
        (upload_chunk_raw (putRawReq md5 j) B st).2) ∧
    (∀ st : ServerState,
      (upload_chunk_multipart (putMultipartForm md5 j B) st).2 =
        (upload_chunk_raw (putRawReq md5 j) B st).2) ∧
    (∀ st : ServerState,
      (upload_chunk_multipart (putMultipartForm md5 j B)
          ((upload_chunk_raw (putRawReq md5 j) A st).2)).2 =
        (upload_chunk_multipart (putMultipartForm md5 j B) st).2) ∧
    (∀ st : ServerState,
      List.lookup (chunkName (j : Int))
        ((List.lookup md5 ((upload_chunk_raw (putRawReq md5 j) B
            ((upload_chunk_raw (putRawReq md5 j) A st).2)).2.fs)).getD []) = some B) ∧
    (merge_chunks req ((upload_chunk_raw (putRawReq md5 j) B
        (uploadAll md5 (perm.map (fun i => (i, data.getD i []))) st0)).2)).1 =
      .ok (data.set j B).flatten :=
  ⟨fun st => upload_overwrite hmd5 j A B st,
   fun st => multipart_raw_same_state hmd5 j B st,
   fun st => upload_overwrite_multipart hmd5 j A B st,
   fun st => upload_stored_last hmd5 j A B st,
   merge_after_reupload md5 hmd5 data hN perm hperm st0 h0 j hj B req hreq hfn⟩

/-- Witness for the amended C3: index 0 uploaded as `[9]` then re-uploaded
as `[2]`; under the defaulted output name `k.wav` the merged artifact is
`[2, 8]`, not `[9, 8]`. -/
theorem duplicate_upload_last_write_wins_witness :
    plainComponent "k" = true ∧
    pyStartsWith ((⟨some "k", none, some false⟩ : MergeReq).filename.getD
      ("k" ++ ".wav")) "chunk_" = false ∧
    ([0, 1] : List Nat).Perm (List.range ([[9], [8]] : List Bytes).length) ∧
    (merge_chunks ⟨some "k", none, some false⟩ ((upload_chunk_raw (putRawReq "k" 0) [2]
        (uploadAll "k" ([0, 1].map (fun i => (i, [[9], [8]].getD i []))) ⟨[], []⟩)).2)).1 =
      .ok (([[9], [8]] : List Bytes).set 0 [2]).flatten :=
  ⟨by decide, by decide, by decide,
   (duplicate_upload_last_write_wins "k" (by decide) (by decide) [[9], [8]] (by decide)
     [0, 1] (by decide) ⟨[], []⟩ rfl 0 (by decide) [9] [2] ⟨some "k", none, some false⟩ rfl
     (by decide)).2.2.2.2⟩

theorem merge_dir_not_found {req : MergeReq} {st : ServerState} {md5 : String}
    (hreq : req.fileMd5 = some md5) (hmd5 : md5 ≠ "")
    (h : List.lookup md5 st.fs = none) :
    merge_chunks req st = (.error ⟨400, "Chunk directory not found"⟩, st) := by
  unfold merge_chunks
  rw [hreq]
  simp [hmd5, h]

/-- C4: merging a key with no staging directory answers the 400
`Chunk directory not found` error, and merging a directory with no
`chunk_*` files answers the 400 `No chunks found to merge` error; neither
case crashes or returns an empty artifact as success. -/
theorem merge_missing_or_empty_session_400
    (req : MergeReq) (st : ServerState) (md5 : String)
    (hreq : req.fileMd5 = some md5) (hmd5 : md5 ≠ "") :
    (List.lookup md5 st.fs = none →
      merge_chunks req st = (.error ⟨400, "Chunk directory not found"⟩, st)) ∧
    (∀ dir : Dir, List.lookup md5 st.fs = some dir →
      (dir.map Prod.fst).filter (fun n => pyStartsWith n "chunk_") = [] →
      merge_chunks req st = (.error ⟨400, "No chunks found to merge"⟩, st)) := by
  constructor
  · intro h
    exact merge_dir_not_found hreq hmd5 h
  · intro dir hdir hempty
    unfold merge_chunks
    rw [hreq]
    simp only [if_neg hmd5, hdir]
    rw [hempty]
    simp [pySorted]

/-- Witness for C4 at concrete inputs: a key never uploaded to, and a key
whose directory holds only a non-chunk file. -/
theorem merge_missing_or_empty_session_400_witness :
    List.lookup "nokey" ((⟨[("k", [("other.wav", [1])])], []⟩ : ServerState)).fs = none ∧
    merge_chunks ⟨some "nokey", none, none⟩ (⟨[("k", [("other.wav", [1])])], []⟩ : ServerState) =
      (.error ⟨400, "Chunk directory not found"⟩, ⟨[("k", [("other.wav", [1])])], []⟩) ∧
    merge_chunks ⟨some "k", none, none⟩ (⟨[("k", [("other.wav", [1])])], []⟩ : ServerState) =
      (.error ⟨400, "No chunks found to merge"⟩, ⟨[("k", [("other.wav", [1])])], []⟩) :=
  ⟨rfl,
   (merge_missing_or_empty_session_400 ⟨some "nokey", none, none⟩
     ⟨[("k", [("other.wav", [1])])], []⟩ "nokey" rfl (by decide)).1 rfl,
   (merge_missing_or_empty_session_400 ⟨some "k", none, none⟩
     ⟨[("k", [("other.wav", [1])])], []⟩ "k" rfl (by decide)).2 [("other.wav", [1])] rfl
     (by decide)⟩

/-- C2 (code behavior at the failing input): a `fileMd5` containing `../`
is not rejected — there is no key validation anywhere in `upload_chunk` or
`merge_chunks` — the chunk is stored under the traversal key, the
constructed directory path resolves outside the `chunks` staging root, and
a merge for the traversal key proceeds normally. -/
theorem traversal_key_not_rejected :
    upload_chunk_raw ⟨some "../evil", some "0", some "1", none⟩ [1] ⟨[], []⟩ =
      (.ok [("status", .s "ok"), ("chunk_index", .i 0), ("filename", .s "unknown"),
            ("bytes", .i 1)],
       ⟨[("../evil", [(chunkName 0, [1])])], []⟩) ∧
    staysUnder "/tmp/chunks" (_chunk_dir "/tmp" "../evil" ++ "/" ++ chunkName 0) = false ∧
    resolveComponents (pathComponents (_chunk_dir "/tmp" "../evil")) = ["tmp", "evil"] ∧
    (merge_chunks ⟨some "../evil", none, some false⟩
        (⟨[("../evil", [(chunkName 0, [1])])], []⟩ : ServerState)).1 = .ok [1] :=
  ⟨rfl, by decide, by decide, rfl⟩

/-- C7 (counterexample to the claim as stated): a successful multipart
fallback upload answers a JSON object with no `bytes` key. -/
theorem multipart_response_lacks_bytes :
    (upload_chunk_multipart ⟨some [1, 2], some "k", some "0", some "1", some "f.wav"⟩
        ⟨[], []⟩).1 =
      .ok [("status", .s "ok"), ("chunk_index", .i 0), ("filename", .s "f.wav")] ∧
    List.lookup "bytes"
      ([("status", JVal.s "ok"), ("chunk_index", JVal.i 0), ("filename", JVal.s "f.wav")]) =
      none :=
  ⟨rfl, rfl⟩

/-- C7 (amended): every successful raw-path response carries `status`,
`chunk_index`, `filename` and `bytes` (the stored byte count); every
successful multipart-path response carries `status`, `chunk_index` and
`filename` but no `bytes` field. -/
theorem chunk_response_fields (st : ServerState) :
    (∀ (h : RawHeaders) (body : Bytes) (r : JsonObj) (st' : ServerState),
      upload_chunk_raw h body st = (.ok r, st') →
      (List.lookup "status" r).isSome = true ∧ (List.lookup "chunk_index" r).isSome = true ∧
      (List.lookup "filename" r).isSome = true ∧
      List.lookup "bytes" r = some (.i (body.length : Int))) ∧
    (∀ (f : MultipartForm) (r : JsonObj) (st' : ServerState),
      upload_chunk_multipart f st = (.ok r, st') →
      (List.lookup "status" r).isSome = true ∧ (List.lookup "chunk_index" r).isSome = true ∧
      (List.lookup "filename" r).isSome = true ∧ List.lookup "bytes" r = none) := by
  constructor
  · intro h body r st' hyp
    obtain ⟨m, c, t, fn⟩ := h
    cases m with
    | none => exact absurd hyp (by simp [upload_chunk_raw])
    | some md5 =>
      cases c with
      | none => exact absurd hyp (by simp [upload_chunk_raw])
      | some ci =>
        cases t with
        | none => exact absurd hyp (by simp [upload_chunk_raw])
        | some tc =>
          unfold upload_chunk_raw at hyp
          by_cases hm : md5 = ""
          · simp [hm] at hyp
          · simp only [if_neg hm] at hyp
            cases hpi : pyInt ci with
            | none =>
              rw [hpi] at hyp
              cases hpt : pyInt tc <;> rw [hpt] at hyp <;> simp at hyp
            | some i =>
              rw [hpi] at hyp
              cases hpt : pyInt tc with
              | none =>
                rw [hpt] at hyp
                simp at hyp
              | some tt =>
                rw [hpt] at hyp
                simp only [Prod.mk.injEq, Except.ok.injEq] at hyp
                obtain ⟨h1, _⟩ := hyp
                subst h1
                refine ⟨rfl, rfl, rfl, rfl⟩
  · intro f r st' hyp
    obtain ⟨fl, m, c, t, fn⟩ := f
    cases fl with
    | none => exact absurd hyp (by simp [upload_chunk_multipart])
    | some chunk =>
      cases m with
      | none => exact absurd hyp (by simp [upload_chunk_multipart])
      | some md5 =>
        cases c with
        | none => exact absurd hyp (by simp [upload_chunk_multipart])
        | some ci =>
          cases t with
          | none => exact absurd hyp (by simp [upload_chunk_multipart])
          | some tc =>
            unfold upload_chunk_multipart at hyp
            by_cases hm : md5 = ""
            · simp [hm] at hyp
            · simp only [if_neg hm] at hyp
              cases hpi : pyInt ci with
              | none =>
                rw [hpi] at hyp
                cases hpt : pyInt tc <;> rw [hpt] at hyp <;> simp at hyp
              | some i =>
                rw [hpi] at hyp
                cases hpt : pyInt tc with
                | none =>
                  rw [hpt] at hyp
                  simp at hyp
                | some tt =>
                  rw [hpt] at hyp
                  simp only [Prod.mk.injEq, Except.ok.injEq] at hyp
                  obtain ⟨h1, _⟩ := hyp
                  subst h1
                  refine ⟨rfl, rfl, rfl, rfl⟩

/-- Witness for the amended C7: one successful upload on each path. -/
theorem chunk_response_fields_witness :
    upload_chunk_raw ⟨some "k", some "0", some "1", none⟩ [1, 2] ⟨[], []⟩ =
      (.ok [("status", .s "ok"), ("chunk_index", .i 0), ("filename", .s "unknown"),
            ("bytes", .i 2)], ⟨[("k", [(chunkName 0, [1, 2])])], []⟩) ∧
    (List.lookup "bytes" ([("status", JVal.s "ok"), ("chunk_index", JVal.i 0),
        ("filename", JVal.s "unknown"), ("bytes", JVal.i 2)]) = some (.i 2)) ∧
    (List.lookup "bytes" ([("status", JVal.s "ok"), ("chunk_index", JVal.i 0),
        ("filename", JVal.s "f.wav")]) = none) :=
  ⟨rfl,
   ((chunk_response_fields ⟨[], []⟩).1 ⟨some "k", some "0", some "1", none⟩ [1, 2]
     [("status", .s "ok"), ("chunk_index", .i 0), ("filename", .s "unknown"),
      ("bytes", .i 2)] ⟨[("k", [(chunkName 0, [1, 2])])], []⟩ rfl).2.2.2,
   ((chunk_response_fields ⟨[], []⟩).2 ⟨some [1, 2], some "k", some "0", some "1", some "f.wav"⟩
     [("status", .s "ok"), ("chunk_index", .i 0), ("filename", .s "f.wav")]
     ⟨[("k", [(chunkName 0, [1, 2])])], []⟩ rfl).2.2.2⟩

/-- C8: a protected request whose `Authorization` header is missing, uses
a non-Bearer scheme, or carries a token different from the configured key
answers 401 and leaves the server state untouched: no chunk is written, no
merge happens, and nothing reaches the recognizer. -/
theorem auth_failure_no_side_effects
    (apiKey : String) (authorization : Option String) (req : ApiRequest) (st : ServerState)
    (hbad : ∀ a : String, authorization = some a →
      ¬(pyLower (pyPartition a ' ').1 = "bearer" ∧ (pyPartition a ' ').2 = apiKey)) :
    ∃ e : HTTPError, app apiKey authorization req st = (.error e, st) ∧ e.status = 401 := by
  cases authorization with
  | none => exact ⟨⟨401, "Authorization header is missing"⟩, rfl, rfl⟩
  | some a =>
    by_cases ha : a = ""
    · subst ha
      exact ⟨⟨401, "Authorization header is missing"⟩, rfl, rfl⟩
    · have hcond : pyLower (pyPartition a ' ').1 ≠ "bearer" ∨ (pyPartition a ' ').2 ≠ apiKey :=
        not_and_or.mp (hbad a rfl)
      refine ⟨⟨401, "Invalid API Key"⟩, ?_, rfl⟩
      unfold app verify_api_key
      simp only [if_neg ha]
      rw [if_pos hcond]

/-- Witness for C8: the wrong bearer token against the chunk endpoint. -/
theorem auth_failure_no_side_effects_witness :
    ¬(pyLower (pyPartition "Bearer wrong-token" ' ').1 = "bearer" ∧
      (pyPartition "Bearer wrong-token" ' ').2 = "your-secret-api-key") ∧
    ∃ e : HTTPError,
      app "your-secret-api-key" (some "Bearer wrong-token")
          (.chunkRaw ⟨some "k", some "0", some "1", none⟩ [1]) ⟨[], []⟩ =
        (.error e, ⟨[], []⟩) ∧ e.status = 401 :=
  ⟨by decide,
   auth_failure_no_side_effects "your-secret-api-key" (some "Bearer wrong-token")
     (.chunkRaw ⟨some "k", some "0", some "1", none⟩ [1]) ⟨[], []⟩
     (fun a ha => by
       injection ha with ha'
       subst ha'
       decide)⟩

theorem pyStartsWith_append (a b : String) : pyStartsWith (a ++ b) a = true := by
  unfold pyStartsWith
  rw [String.data_append]
  exact isPrefixOf_append_self a.data b.data

theorem isPrefixOf_append_append (x y z : List Char) :
    (x ++ y).isPrefixOf (x ++ (y ++ z)) = true := by
  rw [← List.append_assoc]
  exact isPrefixOf_append_self (x ++ y) z

/-- C9: the timestamp formatter produces zero-padded `HH:MM:SS,mmm`
(with the documented values at 1500 ms and 3,661,000 ms), `to_srt`
numbers its cues 1-based sequentially in that format, and `to_vtt` uses
the comma-to-period variant and starts with the literal `WEBVTT` line. -/
theorem timestamp_and_subtitle_formats :
    _format_timestamp 1500 = "00:00:01,500" ∧
    _format_timestamp 3661000 = "01:01:01,000" ∧
    (∀ ms : Nat, ∃ hh mm ss xx : Nat, ms = ((hh * 60 + mm) * 60 + ss) * 1000 + xx ∧
      mm < 60 ∧ ss < 60 ∧ xx < 1000 ∧
      _format_timestamp ms =
        padNat 2 hh ++ ":" ++ padNat 2 mm ++ ":" ++ padNat 2 ss ++ "," ++ padNat 3 xx) ∧
    (∀ (r : RecResult) (k : Nat), k < (srtCues r).length →
      pyStartsWith ((srtCues r).getD k "") (natDecimal (k + 1) ++ "\n") = true) ∧
    to_srt ⟨"", [⟨0, 1500, " a "⟩, ⟨1500, 3000, "b"⟩]⟩ =
      "1\n00:00:00,000 --> 00:00:01,500\na\n\n2\n00:00:01,500 --> 00:00:03,000\nb\n" ∧
    pyReplaceChar (_format_timestamp 1500) ',' '.' = "00:00:01.500" ∧
    (∀ r : RecResult, pyStartsWith (to_vtt r) "WEBVTT\n" = true) ∧
    to_vtt ⟨"", [⟨0, 1500, " a "⟩]⟩ = "WEBVTT\n\n00:00:00.000 --> 00:00:01.500\na\n" := by
  refine ⟨rfl, rfl, ?_, ?_, rfl, rfl, ?_, rfl⟩
  · intro ms
    refine ⟨ms / 1000 / 3600, ms / 1000 % 3600 / 60, ms / 1000 % 60, ms % 1000,
      ?_, ?_, ?_, ?_, rfl⟩
    · have e1 := Nat.div_add_mod ms 1000
      have e2 := Nat.div_add_mod (ms / 1000) 3600
      have e3 := Nat.div_add_mod (ms / 1000 % 3600) 60
      have e5 : ms / 1000 % 3600 % 60 = ms / 1000 % 60 :=
        Nat.mod_mod_of_dvd (ms / 1000) ⟨60, rfl⟩
      omega
    · have : ms / 1000 % 3600 < 3600 := Nat.mod_lt _ (by omega)
      omega
    · exact Nat.mod_lt _ (by omega)
    · exact Nat.mod_lt _ (by omega)
  · intro r k hk
    have hk' : k < r.sentence_info.enum.length := by
      simpa [srtCues] using hk
    rw [List.getD_eq_getElem _ _ hk]
    show pyStartsWith ((List.map _ r.sentence_info.enum)[k]) _ = true
    rw [List.getElem_map, List.getElem_enum]
    show pyStartsWith (natDecimal (k + 1) ++ "\n" ++ _ ++ " --> " ++ _ ++ "\n" ++ _ ++ "\n") _ = true
    simp only [String.append_assoc]
    unfold pyStartsWith
    simp only [String.data_append]
    exact isPrefixOf_append_append _ _ _
  · intro r
    unfold to_vtt
    cases h : vttCues r with
    | nil =>
      show pyStartsWith "WEBVTT\n" "WEBVTT\n" = true
      decide
    | cons c t =>
      show pyStartsWith ("WEBVTT\n" ++ "\n" ++ pyJoin "\n" (c :: t)) "WEBVTT\n" = true
      rw [String.append_assoc]
      exact pyStartsWith_append "WEBVTT\n" _

/-- Witness for C9's universally quantified parts at concrete inputs. -/
theorem timestamp_and_subtitle_formats_witness :
    (1 : Nat) < (srtCues ⟨"", [⟨0, 1500, " a "⟩, ⟨1500, 3000, "b"⟩]⟩).length ∧
    pyStartsWith ((srtCues ⟨"", [⟨0, 1500, " a "⟩, ⟨1500, 3000, "b"⟩]⟩).getD 1 "")
      (natDecimal 2 ++ "\n") = true ∧
    pyStartsWith (to_vtt ⟨"", [⟨0, 1500, " a "⟩]⟩) "WEBVTT\n" = true :=
  ⟨by decide,
   timestamp_and_subtitle_formats.2.2.2.1 ⟨"", [⟨0, 1500, " a "⟩, ⟨1500, 3000, "b"⟩]⟩ 1
     (by decide),
   timestamp_and_subtitle_formats.2.2.2.2.2.2.1 ⟨"", [⟨0, 1500, " a "⟩]⟩⟩
